import Mathlib

/-! Shallow embedding of the PDFPulse client (src/services/pdfProcessor.ts and
the Gemini insight service): the data model, per-page conversion, the state
update model of the App component, and the export packager, together with
proofs about the conversion orchestration. -/

namespace PDFPulse

/-- Image output format of the converter: the TS union of png and jpeg. -/
inductive Format where
  | png
  | jpeg
deriving DecidableEq

/-- String value of the TS union member, as interpolated into template literals. -/
def Format.str : Format → String
  | .png => "png"
  | .jpeg => "jpeg"

/-- ConversionSettings from types.ts. Scale and quality are modelled as exact
rationals (the UI only supplies multiples of 0.5 and 0.05). -/
structure ConversionSettings where
  format : Format
  scale : ℚ
  quality : ℚ
deriving DecidableEq

/-- One page of a parsed PDF document as seen through pdfjs: an intrinsic
viewport size, the extractable text, and whether page.render succeeds on it. -/
structure PDFPage where
  width : ℚ
  height : ℚ
  text : String
  renderOk : Bool
deriving DecidableEq

/-- A parsed PDF document: its list of pages. -/
structure PDFDocument where
  pages : List PDFPage
deriving DecidableEq

/-- An uploaded browser file. content is what pdfjs getDocument produces from
its bytes: none when the bytes are not a readable PDF. -/
structure File where
  name : String
  size : Nat
  type : String
  content : Option PDFDocument
deriving DecidableEq

/-- Metadata returned by getPDFMetadata. -/
structure PDFMetadata where
  name : String
  size : Nat
  totalPages : Nat
deriving DecidableEq

/-- ConvertedImage from types.ts. dataUrl is identified with the byte payload
carried by the data URL (base64 is a bijection on bytes), blob with the bytes
of the Blob. -/
structure ConvertedImage where
  id : String
  pageNumber : Nat
  dataUrl : List Nat
  blob : List Nat
  width : ℚ
  height : ℚ
deriving DecidableEq

/-- AIInsights from types.ts. -/
structure AIInsights where
  summary : String
  keywords : List String
  suggestedFileName : String
deriving DecidableEq

/-- The browser drawing platform: whether getContext succeeds, and the two
canvas encoders the code uses, toDataURL and toBlob. Each encoder is a
function of the drawn surface (determined by the page and the scale), the
format and the quality argument. They are two distinct platform entry points,
exactly as in the source, which calls canvas.toDataURL and canvas.toBlob
separately. -/
structure Platform where
  contextOk : Bool
  encodeDataUrl : PDFPage → ℚ → Format → ℚ → List Nat
  encodeBlob : PDFPage → ℚ → Format → ℚ → List Nat

/-- convertPageToImage from pdfProcessor.ts. Every thrown error (unreadable
PDF, page out of range, missing 2d context, render failure) is modelled as
none since the caller catches all of them alike; now models Date.now() at the
call. The canvas dimensions are the intrinsic page size times the scale. -/
def convertPageToImage (pf : Platform) (now : Nat) (file : File)
    (pageNumber : Nat) (settings : ConversionSettings) : Option ConvertedImage :=
  match file.content with
  | none => none
  | some pdf =>
    match pdf.pages.get? (pageNumber - 1) with
    | none => none
    | some page =>
      if pf.contextOk = false then none
      else if page.renderOk = false then none
      else some
        { id := "p-" ++ toString pageNumber ++ "-" ++ toString now
          pageNumber := pageNumber
          dataUrl := pf.encodeDataUrl page settings.scale settings.format settings.quality
          blob := pf.encodeBlob page settings.scale settings.format settings.quality
          width := page.width * settings.scale
          height := page.height * settings.scale }

/-- getPDFMetadata from pdfProcessor.ts: none models getDocument throwing. -/
def getPDFMetadata (file : File) : Option PDFMetadata :=
  file.content.map fun pdf =>
    { name := file.name, size := file.size, totalPages := pdf.pages.length }

/-- extractTextFromFirstPage from the insight service: none models a throw
(unreadable PDF or a document with no page 1). -/
def extractTextFromFirstPage (file : File) : Option String :=
  match file.content with
  | none => none
  | some pdf => (pdf.pages.get? 0).map fun p => p.text

/-- Outcome of the remote generateContent call: a thrown failure (network,
auth, timeout) or a resolved response with its raw text. -/
inductive RemoteOutcome where
  | failure
  | response (text : String)

/-- Environment of the insight call: the remote endpoint, and the platform
JSON.parse composed with the unchecked cast to AIInsights; parse returning
none models JSON.parse throwing on unparseable text. -/
structure AnalyzeEnv where
  remote : String → RemoteOutcome
  parse : String → Option AIInsights

/-- The fixed fallback insight value returned on any analysis failure. -/
def defaultInsights : AIInsights :=
  { summary := "Could not analyze document content."
    keywords := []
    suggestedFileName := "document_export" }

/-- Prompt string built by analyzePDFContent: the input text truncated to 4000
units, wrapped in the fixed instructions of the source template literal. -/
def buildPrompt (text : String) : String :=
  "Analyze the following text extracted from a PDF document and provide insights in JSON format. Text Content: " ++
    text.take 4000 ++
    " Requirements: 1. summary: A 1-2 sentence overview of the document content. 2. keywords: 5-8 relevant keywords. 3. suggestedFileName: A professional, snake_case filename based on the content (without extension)."

/-- analyzePDFContent from the insight service: fire the remote call, parse
its text, and on any thrown failure return the fixed default. The Lean
function is total: the call always resolves with an AIInsights value. -/
def analyzePDFContent (env : AnalyzeEnv) (text : String) : AIInsights :=
  match env.remote (buildPrompt text) with
  | .failure => defaultInsights
  | .response raw =>
    match env.parse raw with
    | none => defaultInsights
    | some v => v

/-- React state of the App component, plus the browser console (the target of
console.error), so that reported failures are observable in the model. -/
structure AppState where
  file : Option File
  metadata : Option PDFMetadata
  settings : ConversionSettings
  images : List ConvertedImage
  isProcessing : Bool
  progress : Nat
  aiInsights : Option AIInsights
  isAnalyzing : Bool
  console : List String
deriving DecidableEq

/-- One state update of the App component. Each constructor models one setX
call of the source (clearImages is setImages with an empty array, pushImage
the functional setImages append), plus console.error. -/
inductive Event where
  | setFile (f : Option File)
  | setMetadata (m : Option PDFMetadata)
  | setSettings (s : ConversionSettings)
  | clearImages
  | pushImage (img : ConvertedImage)
  | setIsProcessing (b : Bool)
  | setProgress (p : Nat)
  | setAiInsights (o : Option AIInsights)
  | setIsAnalyzing (b : Bool)
  | logError (msg : String)
deriving DecidableEq

/-- Apply one state update. -/
def applyEvent (st : AppState) : Event → AppState
  | .setFile f => { st with file := f }
  | .setMetadata m => { st with metadata := m }
  | .setSettings s => { st with settings := s }
  | .clearImages => { st with images := [] }
  | .pushImage img => { st with images := st.images ++ [img] }
  | .setIsProcessing b => { st with isProcessing := b }
  | .setProgress p => { st with progress := p }
  | .setAiInsights o => { st with aiInsights := o }
  | .setIsAnalyzing b => { st with isAnalyzing := b }
  | .logError msg => { st with console := st.console ++ [msg] }

/-- Apply a list of state updates in order. -/
def applyEvents (st : AppState) (evs : List Event) : AppState :=
  evs.foldl applyEvent st

/-- All states passed through while applying a list of updates, including the
initial and the final one. -/
def runStates (st : AppState) : List Event → List AppState
  | [] => [st]
  | e :: evs => st :: runStates (applyEvent st e) evs

/-- Images published by a list of updates via the functional setImages append. -/
def publishedImages (evs : List Event) : List ConvertedImage :=
  evs.filterMap fun e =>
    match e with
    | .pushImage img => some img
    | _ => none

/-- Progress values published by a list of updates, in order. -/
def progressValues (evs : List Event) : List Nat :=
  evs.filterMap fun e =>
    match e with
    | .setProgress p => some p
    | _ => none

/-- Whether an update discards the accumulated image list. -/
def clearsImages : Event → Bool
  | .clearImages => true
  | _ => false

/-- Math.round of (i / total) * 100 on exact rationals: rounding half away
from zero on a nonnegative argument is the floor of x + 1/2. -/
def round100 (i total : Nat) : Nat := (200 * i + total) / (2 * total)

/-- The page renderer the conversion loop calls: convertPageToImage over the
file and settings captured when the run started. -/
def mkConv (pf : Platform) (now : Nat) (file : File)
    (settings : ConversionSettings) : Nat → Option ConvertedImage :=
  fun i => convertPageToImage pf now file i settings

/-- Console message of the per-page catch block. -/
def failMsg (i : Nat) : String := "Failed to convert page " ++ toString i ++ ":"

/-- State updates of one iteration of the conversion loop: on success push the
image then publish progress; on failure report to the console and move on. -/
def pageEvents (conv : Nat → Option ConvertedImage) (total i : Nat) : List Event :=
  match conv i with
  | some img => [.pushImage img, .setProgress (round100 i total)]
  | none => [.logError (failMsg i)]

/-- Pages attempted by the loop, in loop order: 1, 2, ..., total. -/
def attemptedPages (total : Nat) : List Nat := List.range' 1 total

/-- State updates of the whole conversion loop. -/
def loopEvents (conv : Nat → Option ConvertedImage) (total : Nat) : List Event :=
  (attemptedPages total).flatMap (pageEvents conv total)

/-- State updates emitted by one convertAllPages invocation: the guard on file
and metadata, then setIsProcessing(true) and setImages([]), the loop, and
setIsProcessing(false). Progress is not touched before the loop. -/
def convertAllPagesEvents (pf : Platform) (now : Nat) (st : AppState) : List Event :=
  match st.file, st.metadata with
  | some f, some md =>
    .setIsProcessing true :: .clearImages ::
      (loopEvents (mkConv pf now f st.settings) md.totalPages ++ [.setIsProcessing false])
  | _, _ => []

/-- Final state of one convertAllPages invocation run to completion without
interleaved updates from other handlers. -/
def convertAllPages (pf : Platform) (now : Nat) (st : AppState) : AppState :=
  applyEvents st (convertAllPagesEvents pf now st)

/-- State updates emitted by handleFileUpload for a selected file (none models
an empty selection). Only a file whose MIME type is application/pdf passes the
guard; the catch block reports load errors to the console. -/
def handleFileUploadEvents (env : AnalyzeEnv) (uploaded : Option File) : List Event :=
  match uploaded with
  | none => []
  | some f =>
    if f.type = "application/pdf" then
      [.setFile (some f), .clearImages, .setAiInsights none, .setProgress 0] ++
        (match getPDFMetadata f with
         | none => [.logError "Error reading PDF:"]
         | some meta =>
           [.setMetadata (some meta), .setIsAnalyzing true] ++
             match extractTextFromFirstPage f with
             | none => [.logError "Error reading PDF:"]
             | some text =>
               [.setAiInsights (some (analyzePDFContent env text)), .setIsAnalyzing false])
    else []

/-- Final state of one handleFileUpload invocation run without interleaving. -/
def handleFileUpload (env : AnalyzeEnv) (uploaded : Option File) (st : AppState) : AppState :=
  applyEvents st (handleFileUploadEvents env uploaded)

/-- First-occurrence replacement: the semantics of JS String.replace with a
string pattern. -/
def replaceFirst (s pat rep : String) : String :=
  match s.splitOn pat with
  | [] => s
  | [_] => s
  | a :: rest => a ++ rep ++ String.intercalate pat rest

/-- JS expression a || b on an optional string: empty strings are falsy. -/
def jsOrStr (a : Option String) (b : String) : String :=
  match a with
  | none => b
  | some s => if s = "" then b else s

/-- folderName computed by downloadAllAsZip and downloadSingle. -/
def folderName (st : AppState) : String :=
  jsOrStr (st.aiInsights.map fun ins => ins.suggestedFileName)
    (jsOrStr (st.metadata.map fun m => replaceFirst m.name ".pdf" "") "pdf_export")

/-- Archive entry name for one image: the template literal passed to zip.file. -/
def entryName (base : String) (fmt : Format) (pageNumber : Nat) : String :=
  base ++ "_page_" ++ toString pageNumber ++ "." ++ fmt.str

/-- The (name, bytes) pairs handed to the zip archiver by downloadAllAsZip. -/
def zipEntries (images : List ConvertedImage) (base : String) (fmt : Format) :
    List (String × List Nat) :=
  images.map fun img => (entryName base fmt img.pageNumber, img.blob)

/-- downloadAllAsZip: none when there is nothing to export (the early return),
otherwise the archive entries, named under the settings active at packaging
time. -/
def downloadAllAsZip (st : AppState) : Option (List (String × List Nat)) :=
  if st.images.length = 0 then none
  else some (zipEntries st.images (folderName st) st.settings.format)

/-! Basic lemmas about the state update machinery. -/

theorem applyEvents_nil (st : AppState) : applyEvents st [] = st := rfl

theorem applyEvents_cons (st : AppState) (e : Event) (evs : List Event) :
    applyEvents st (e :: evs) = applyEvents (applyEvent st e) evs := rfl

theorem applyEvents_append (st : AppState) (l1 l2 : List Event) :
    applyEvents st (l1 ++ l2) = applyEvents (applyEvents st l1) l2 := by
  unfold applyEvents
  exact List.foldl_append _ _ _ _

/-- The images accumulated by running the conversion loop over an arbitrary
list of page numbers: the loop appends exactly the successful renders, in
order. -/
theorem images_applyEvents_flatMap (conv : Nat → Option ConvertedImage) (total : Nat) :
    ∀ (ps : List Nat) (st : AppState),
      (applyEvents st (ps.flatMap (pageEvents conv total))).images
        = st.images ++ ps.filterMap conv := by
  intro ps
  induction ps with
  | nil => intro st; simp [applyEvents]
  | cons i ps ih =>
    intro st
    rw [List.flatMap_cons, applyEvents_append]
    cases h : conv i with
    | some img =>
      simp only [pageEvents, h]
      rw [ih]
      simp [applyEvents, applyEvent, List.filterMap_cons, h]
    | none =>
      simp only [pageEvents, h]
      rw [ih]
      simp [applyEvents, applyEvent, List.filterMap_cons, h]

/-- The console output of the conversion loop: one failure message per failed
page, in order. -/
theorem console_applyEvents_flatMap (conv : Nat → Option ConvertedImage) (total : Nat) :
    ∀ (ps : List Nat) (st : AppState),
      (applyEvents st (ps.flatMap (pageEvents conv total))).console
        = st.console ++ (ps.filter fun i => (conv i).isNone).map failMsg := by
  intro ps
  induction ps with
  | nil => intro st; simp [applyEvents]
  | cons i ps ih =>
    intro st
    rw [List.flatMap_cons, applyEvents_append]
    cases h : conv i with
    | some img =>
      simp only [pageEvents, h]
      rw [ih]
      simp [applyEvents, applyEvent, List.filter_cons, h]
    | none =>
      simp only [pageEvents, h]
      rw [ih]
      simp [applyEvents, applyEvent, List.filter_cons, h]

/-- The loop never touches the processing flag. -/
theorem isProcessing_applyEvents_flatMap (conv : Nat → Option ConvertedImage) (total : Nat) :
    ∀ (ps : List Nat) (st : AppState),
      (applyEvents st (ps.flatMap (pageEvents conv total))).isProcessing
        = st.isProcessing := by
  intro ps
  induction ps with
  | nil => intro st; simp [applyEvents]
  | cons i ps ih =>
    intro st
    rw [List.flatMap_cons, applyEvents_append]
    cases h : conv i with
    | some img =>
      simp only [pageEvents, h]
      rw [ih]
      simp [applyEvents, applyEvent]
    | none =>
      simp only [pageEvents, h]
      rw [ih]
      simp [applyEvents, applyEvent]

/-- Progress values published by the loop: the rounded percentage of each
successfully rendered page, in order; failed pages publish nothing. -/
theorem progressValues_flatMap (conv : Nat → Option ConvertedImage) (total : Nat) :
    ∀ ps : List Nat,
      progressValues (ps.flatMap (pageEvents conv total))
        = (ps.filter fun i => (conv i).isSome).map fun i => round100 i total := by
  intro ps
  induction ps with
  | nil => rfl
  | cons i ps ih =>
    rw [List.flatMap_cons]
    cases h : conv i with
    | some img =>
      simp only [pageEvents, h, progressValues, List.filterMap_append] at ih ⊢
      simp [List.filter_cons, h, ih]
    | none =>
      simp only [pageEvents, h, progressValues, List.filterMap_append] at ih ⊢
      simp [List.filter_cons, h, ih]

/-- Images published by the loop are exactly the successful renders in order. -/
theorem publishedImages_flatMap (conv : Nat → Option ConvertedImage) (total : Nat) :
    ∀ ps : List Nat,
      publishedImages (ps.flatMap (pageEvents conv total)) = ps.filterMap conv := by
  intro ps
  induction ps with
  | nil => rfl
  | cons i ps ih =>
    rw [List.flatMap_cons]
    cases h : conv i with
    | some img =>
      simp only [pageEvents, h, publishedImages, List.filterMap_append] at ih ⊢
      simp [List.filterMap_cons, h, ih]
    | none =>
      simp only [pageEvents, h, publishedImages, List.filterMap_append] at ih ⊢
      simp [List.filterMap_cons, h, ih]

/-- A state reached inside an appended run was reached in the first part or is
reached in the second part started from the first part's final state. -/
theorem mem_runStates_append {s : AppState} :
    ∀ (l1 : List Event) (st : AppState) (l2 : List Event),
      s ∈ runStates st (l1 ++ l2) →
      s ∈ runStates st l1 ∨ s ∈ runStates (applyEvents st l1) l2 := by
  intro l1
  induction l1 with
  | nil => intro st l2 h; right; exact h
  | cons e l1 ih =>
    intro st l2 h
    rw [List.cons_append] at h
    simp only [runStates, List.mem_cons] at h
    rcases h with h | h
    · left; rw [h]; simp [runStates]
    · rcases ih (applyEvent st e) l2 h with h | h
      · left; simp [runStates, List.mem_cons, h]
      · right; rwa [applyEvents_cons]

/-- Every state passed through while the conversion loop runs carries an image
list equal to the starting one extended by the successful renders of some
prefix of the page list. -/
theorem images_mem_runStates_flatMap (conv : Nat → Option ConvertedImage) (total : Nat) :
    ∀ (ps : List Nat) (st s : AppState),
      s ∈ runStates st (ps.flatMap (pageEvents conv total)) →
      ∃ qs rs, ps = qs ++ rs ∧ s.images = st.images ++ qs.filterMap conv := by
  intro ps
  induction ps with
  | nil =>
    intro st s hs
    simp only [List.flatMap_nil, runStates, List.mem_singleton] at hs
    exact ⟨[], [], rfl, by simp [hs]⟩
  | cons i ps ih =>
    intro st s hs
    rw [List.flatMap_cons] at hs
    cases h : conv i with
    | some img =>
      simp only [pageEvents, h, List.cons_append, List.nil_append] at hs
      simp only [runStates, List.mem_cons] at hs
      rcases hs with hs | hs | hs
      · exact ⟨[], i :: ps, rfl, by simp [hs]⟩
      · refine ⟨[i], ps, rfl, ?_⟩
        rw [hs]
        simp [applyEvent, List.filterMap_cons, h]
      · rcases ih _ s hs with ⟨qs, rs, hps, him⟩
        refine ⟨i :: qs, rs, by rw [List.cons_append, hps], ?_⟩
        rw [him]
        simp [applyEvent, List.filterMap_cons, h]
    | none =>
      simp only [pageEvents, h, List.cons_append, List.nil_append] at hs
      simp only [runStates, List.mem_cons] at hs
      rcases hs with hs | hs
      · exact ⟨[], i :: ps, rfl, by simp [hs]⟩
      · rcases ih _ s hs with ⟨qs, rs, hps, him⟩
        refine ⟨i :: qs, rs, by rw [List.cons_append, hps], ?_⟩
        rw [him]
        simp [applyEvent, List.filterMap_cons, h]

/-- Rounded percentage is monotone in the completed page count. -/
theorem round100_mono (total : Nat) {i j : Nat} (h : i ≤ j) :
    round100 i total ≤ round100 j total :=
  Nat.div_le_div_right (by omega)

/-- Rounded percentage of the final page is exactly 100. -/
theorem round100_total (total : Nat) (h : 0 < total) : round100 total total = 100 := by
  unfold round100
  have h2 : 200 * total + total = total + 2 * total * 100 := by ring
  rw [h2, Nat.add_mul_div_left _ _ (by omega : 0 < 2 * total),
    Nat.div_eq_of_lt (by omega : total < 2 * total)]

/-- Characterization of a successful render: the source document is readable,
the page exists, the context and the render succeed, and the produced image
records the page number, the two encoder outputs and the scaled dimensions. -/
theorem mkConv_eq_some {pf : Platform} {now : Nat} {file : File}
    {s : ConversionSettings} {i : Nat} {img : ConvertedImage}
    (h : mkConv pf now file s i = some img) :
    ∃ pdf page, file.content = some pdf ∧ pdf.pages.get? (i - 1) = some page ∧
      pf.contextOk = true ∧ page.renderOk = true ∧
      img = { id := "p-" ++ toString i ++ "-" ++ toString now
              pageNumber := i
              dataUrl := pf.encodeDataUrl page s.scale s.format s.quality
              blob := pf.encodeBlob page s.scale s.format s.quality
              width := page.width * s.scale
              height := page.height * s.scale } := by
  unfold mkConv convertPageToImage at h
  cases hc : file.content with
  | none => simp only [hc] at h; exact Option.noConfusion h
  | some pdf =>
    simp only [hc] at h
    cases hp : pdf.pages.get? (i - 1) with
    | none => simp only [hp] at h; exact Option.noConfusion h
    | some page =>
      simp only [hp] at h
      cases hctx : pf.contextOk with
      | false => simp [hctx] at h
      | true =>
        simp only [hctx] at h
        cases hrok : page.renderOk with
        | false => simp [hrok] at h
        | true =>
          simp only [hrok, Bool.true_eq_false, if_false, Option.some.injEq] at h
          exact ⟨pdf, page, rfl, hp, rfl, hrok, h.symm⟩

/-- A successful render of page i yields an image numbered i. -/
theorem mkConv_pageNumber {pf : Platform} {now : Nat} {file : File}
    {s : ConversionSettings} {i : Nat} {img : ConvertedImage}
    (h : mkConv pf now file s i = some img) : img.pageNumber = i := by
  rcases mkConv_eq_some h with ⟨pdf, page, -, -, -, -, himg⟩
  rw [himg]

/-- The page numbers of the successful renders of a page list are exactly the
pages of the list on which the renderer succeeds, in order. -/
theorem map_pageNumber_filterMap (conv : Nat → Option ConvertedImage)
    (hconv : ∀ i img, conv i = some img → img.pageNumber = i) :
    ∀ qs : List Nat,
      ((qs.filterMap conv).map fun img => img.pageNumber)
        = qs.filter fun i => (conv i).isSome := by
  intro qs
  induction qs with
  | nil => rfl
  | cons i qs ih =>
    cases h : conv i with
    | some img => simp [List.filterMap_cons, h, List.filter_cons, ih, hconv i img h]
    | none => simp [List.filterMap_cons, h, List.filter_cons, ih]

/-! Decimal rendering. The template literals of the source interpolate page
numbers through their decimal representation (Nat.repr in the embedding); the
following development proves that rendering injective, so that distinct page
numbers yield distinct archive entry names. -/

/-- Decimal digit list of a number, most significant digit first. -/
def decDigits (n : Nat) : List Char :=
  if h : n < 10 then [Nat.digitChar n]
  else decDigits (n / 10) ++ [Nat.digitChar (n % 10)]
decreasing_by exact Nat.div_lt_self (by omega) (by omega)

/-- The fuel-based core renderer agrees with decDigits whenever the fuel
suffices. -/
theorem toDigitsCore_eq_decDigits :
    ∀ (fuel n : Nat) (ds : List Char), n < fuel →
      Nat.toDigitsCore 10 fuel n ds = decDigits n ++ ds := by
  intro fuel
  induction fuel with
  | zero => intro n ds h; omega
  | succ f ih =>
    intro n ds h
    simp only [Nat.toDigitsCore]
    by_cases h10 : n / 10 = 0
    · have hlt : n < 10 := by omega
      rw [if_pos h10, decDigits, dif_pos hlt, Nat.mod_eq_of_lt hlt]
      simp
    · have hge : ¬ n < 10 := by omega
      have hdiv : n / 10 < n := Nat.div_lt_self (by omega) (by omega)
      have hrec : decDigits n = decDigits (n / 10) ++ [Nat.digitChar (n % 10)] := by
        rw [decDigits, dif_neg hge]
      rw [if_neg h10, ih (n / 10) _ (by omega), hrec, List.append_assoc,
        List.singleton_append]

/-- The rendering used by Nat.repr is decDigits. -/
theorem toDigits_eq_decDigits (n : Nat) : Nat.toDigits 10 n = decDigits n := by
  unfold Nat.toDigits
  rw [toDigitsCore_eq_decDigits (n + 1) n [] (Nat.lt_succ_self n), List.append_nil]

/-- Numeric value of one digit character. -/
def digitVal (c : Char) : Nat := c.toNat - 48

/-- digitVal inverts digitChar on decimal digits. -/
theorem digitVal_digitChar : ∀ d < 10, digitVal (Nat.digitChar d) = d := by decide

/-- Folding the digit values over decDigits recovers the number. -/
theorem digitsVal_decDigits :
    ∀ n acc, List.foldl (fun a c => 10 * a + digitVal c) acc (decDigits n)
      = acc * 10 ^ (decDigits n).length + n := by
  intro n
  induction n using Nat.strong_induction_on with
  | _ n ih =>
    intro acc
    by_cases h : n < 10
    · rw [decDigits, dif_pos h]
      simp [digitVal_digitChar n h]
      omega
    · rw [decDigits, dif_neg h]
      have hdiv : n / 10 < n := Nat.div_lt_self (by omega) (by omega)
      rw [List.foldl_append, ih (n / 10) hdiv acc]
      simp only [List.foldl_cons, List.foldl_nil, List.length_append,
        List.length_singleton, digitVal_digitChar (n % 10) (Nat.mod_lt n (by omega))]
      rw [pow_succ, ← mul_assoc]
      generalize acc * (10 : Nat) ^ (decDigits (n / 10)).length = m
      omega

/-- decDigits is injective. -/
theorem decDigits_inj {m n : Nat} (h : decDigits m = decDigits n) : m = n := by
  have hm := digitsVal_decDigits m 0
  have hn := digitsVal_decDigits n 0
  rw [h] at hm
  simp only [Nat.zero_mul, Nat.zero_add] at hm hn
  omega

/-- The decimal rendering of page numbers is injective. -/
theorem natRepr_inj {m n : Nat} (h : Nat.repr m = Nat.repr n) : m = n := by
  apply decDigits_inj
  have hd : (Nat.toDigits 10 m).asString.data = (Nat.toDigits 10 n).asString.data :=
    congrArg String.data h
  rw [toDigits_eq_decDigits, toDigits_eq_decDigits] at hd
  exact hd

/-- Distinct page numbers give distinct archive entry names. -/
theorem entryName_inj {base : String} {fmt : Format} {k j : Nat}
    (h : entryName base fmt k = entryName base fmt j) : k = j := by
  unfold entryName at h
  have hd := congrArg String.data h
  simp only [String.data_append, List.append_assoc] at hd
  have h1 := List.append_cancel_left hd
  have h2 := List.append_cancel_left h1
  have h3 := List.append_cancel_right h2
  exact natRepr_inj (String.ext h3)

/-! Characterization of a full convertAllPages invocation. -/

/-- Shape of the update list emitted by convertAllPages when the guard
passes. -/
theorem convertAllPagesEvents_eq (pf : Platform) (now : Nat) (st : AppState)
    (f : File) (md : PDFMetadata) (hf : st.file = some f) (hmd : st.metadata = some md) :
    convertAllPagesEvents pf now st
      = Event.setIsProcessing true :: Event.clearImages ::
        (loopEvents (mkConv pf now f st.settings) md.totalPages
          ++ [Event.setIsProcessing false]) := by
  unfold convertAllPagesEvents
  simp only [hf, hmd]

/-- Final image list of a completed convertAllPages run: exactly the
successful renders of pages 1..totalPages of the captured file, in order. -/
theorem convertAllPages_images (pf : Platform) (now : Nat) (st : AppState)
    (f : File) (md : PDFMetadata) (hf : st.file = some f) (hmd : st.metadata = some md) :
    (convertAllPages pf now st).images
      = (attemptedPages md.totalPages).filterMap (mkConv pf now f st.settings) := by
  unfold convertAllPages
  rw [convertAllPagesEvents_eq pf now st f md hf hmd, applyEvents_cons, applyEvents_cons,
    applyEvents_append]
  have hfin : ∀ s : AppState,
      (applyEvents s [Event.setIsProcessing false]).images = s.images := fun s => rfl
  rw [hfin, loopEvents, images_applyEvents_flatMap]
  rfl

/-- Final console of a completed convertAllPages run: a failure report for
each failed page, in order, appended to the prior console. -/
theorem convertAllPages_console (pf : Platform) (now : Nat) (st : AppState)
    (f : File) (md : PDFMetadata) (hf : st.file = some f) (hmd : st.metadata = some md) :
    (convertAllPages pf now st).console
      = st.console ++ ((attemptedPages md.totalPages).filter
          (fun i => (mkConv pf now f st.settings i).isNone)).map failMsg := by
  unfold convertAllPages
  rw [convertAllPagesEvents_eq pf now st f md hf hmd, applyEvents_cons, applyEvents_cons,
    applyEvents_append]
  have hfin : ∀ s : AppState,
      (applyEvents s [Event.setIsProcessing false]).console = s.console := fun s => rfl
  rw [hfin, loopEvents, console_applyEvents_flatMap]
  rfl

/-- A completed convertAllPages run ends in the Done state. -/
theorem convertAllPages_done (pf : Platform) (now : Nat) (st : AppState)
    (f : File) (md : PDFMetadata) (hf : st.file = some f) (hmd : st.metadata = some md) :
    (convertAllPages pf now st).isProcessing = false := by
  unfold convertAllPages
  rw [convertAllPagesEvents_eq pf now st f md hf hmd, applyEvents_cons, applyEvents_cons,
    applyEvents_append]
  rfl

/-- Progress values published over a convertAllPages run: the rounded
percentage of each successfully rendered page, in order. -/
theorem progressValues_convertAll (pf : Platform) (now : Nat) (st : AppState)
    (f : File) (md : PDFMetadata) (hf : st.file = some f) (hmd : st.metadata = some md) :
    progressValues (convertAllPagesEvents pf now st)
      = ((attemptedPages md.totalPages).filter
          (fun i => (mkConv pf now f st.settings i).isSome)).map
            (fun i => round100 i md.totalPages) := by
  rw [convertAllPagesEvents_eq pf now st f md hf hmd, loopEvents]
  have hp := progressValues_flatMap (mkConv pf now f st.settings) md.totalPages
    (attemptedPages md.totalPages)
  simp only [progressValues, List.filterMap_cons, List.filterMap_append,
    List.filterMap_nil, List.append_nil] at hp ⊢
  exact hp

/-- Membership in the attempted page list is exactly the interval 1..total. -/
theorem attemptedPages_mem {i total : Nat} :
    i ∈ attemptedPages total ↔ 1 ≤ i ∧ i ≤ total := by
  unfold attemptedPages
  rw [List.mem_range'_1]
  omega

/-- The attempted page list is strictly increasing. -/
theorem attemptedPages_sorted (total : Nat) :
    List.Pairwise (· < ·) (attemptedPages total) :=
  List.pairwise_lt_range' 1 total

/-- The attempted page list has no duplicates. -/
theorem attemptedPages_nodup (total : Nat) : (attemptedPages total).Nodup :=
  List.nodup_range' 1 total

/-! Concrete fixtures used by the witnesses and counterexamples. -/

/-- A renderable page. -/
def pageW : PDFPage := { width := 3, height := 4, text := "hello", renderOk := true }

/-- A page on which page.render throws. -/
def pageBad : PDFPage := { width := 3, height := 4, text := "hello", renderOk := false }

/-- A parsed one-page document. -/
def pdfW : PDFDocument := { pages := [pageW] }

/-- A parsed one-page document whose page fails to render. -/
def pdfBad : PDFDocument := { pages := [pageBad] }

/-- A readable one-page PDF file. -/
def fileW : File :=
  { name := "a.pdf", size := 10, type := "application/pdf", content := some pdfW }

/-- A readable one-page PDF file whose page fails to render. -/
def fileBad : File :=
  { name := "b.pdf", size := 10, type := "application/pdf", content := some pdfBad }

/-- A selected file that is not a PDF. -/
def fileTxt : File :=
  { name := "a.txt", size := 5, type := "text/plain", content := none }

/-- A platform whose two encoders agree. -/
def pfW : Platform :=
  { contextOk := true
    encodeDataUrl := fun _ _ _ _ => [7]
    encodeBlob := fun _ _ _ _ => [7] }

/-- A platform whose toDataURL and toBlob encoders disagree. -/
def pfBadEnc : Platform :=
  { contextOk := true
    encodeDataUrl := fun _ _ _ _ => [0]
    encodeBlob := fun _ _ _ _ => [1] }

/-- Default settings fixture. -/
def settingsW : ConversionSettings := { format := Format.png, scale := 2, quality := 1 }

/-- An insight environment whose remote call fails. -/
def envW : AnalyzeEnv := { remote := fun _ => RemoteOutcome.failure, parse := fun _ => none }

/-- Metadata of the one-page fixture files. -/
def mdW : PDFMetadata := { name := "a.pdf", size := 10, totalPages := 1 }

/-- A clean session holding the renderable one-page document. -/
def stW : AppState :=
  { file := some fileW, metadata := some mdW, settings := settingsW, images := []
    isProcessing := false, progress := 0, aiInsights := none, isAnalyzing := false
    console := [] }

/-- Session holding the failing one-page document, progress left at 0. -/
def stBad0 : AppState := { stW with file := some fileBad }

/-- Session holding the failing one-page document with stale progress 50. -/
def stBad50 : AppState := { stW with file := some fileBad, progress := 50 }

/-! Claim theorems. -/

/-- C3: for every input text, analyzePDFContent always resolves and never
propagates an error (it is a total function into AIInsights in this model);
whenever the remote call fails, or it resolves but its response text does not
parse, the result is exactly the fixed default InsightResult with summary
"Could not analyze document content.", empty keywords, and suggested file
name "document_export". -/
theorem analyzePDFContent_resolves_default (env : AnalyzeEnv) (text : String)
    (h : env.remote (buildPrompt text) = RemoteOutcome.failure ∨
      ∀ raw, env.remote (buildPrompt text) = RemoteOutcome.response raw →
        env.parse raw = none) :
    analyzePDFContent env text = defaultInsights := by
  unfold analyzePDFContent
  cases hr : env.remote (buildPrompt text) with
  | failure => rfl
  | response raw =>
    rcases h with h | h
    · rw [hr] at h
      exact RemoteOutcome.noConfusion h
    · have hp := h raw hr
      simp [hp]

/-- Witness for C3: a network failure yields exactly the default insight. -/
theorem analyzePDFContent_resolves_default_witness :
    analyzePDFContent envW "sample" = defaultInsights :=
  analyzePDFContent_resolves_default envW "sample" (Or.inl rfl)

/-- C10: a selected file whose MIME type is not application/pdf is silently
ignored: the upload handler emits no state update at all, so it raises no
error, attempts no load, and the entire session state (current file,
metadata, accumulated images, insight result, progress) is unchanged. -/
theorem handleFileUpload_ignores_nonPdf (env : AnalyzeEnv) (st : AppState) (f : File)
    (h : f.type ≠ "application/pdf") :
    handleFileUploadEvents env (some f) = [] ∧
      handleFileUpload env (some f) st = st := by
  have he : handleFileUploadEvents env (some f) = [] := by
    simp only [handleFileUploadEvents, if_neg h]
  exact ⟨he, by rw [handleFileUpload, he]; rfl⟩

/-- Witness for C10: a text file leaves a concrete session untouched. -/
theorem handleFileUpload_ignores_nonPdf_witness :
    handleFileUploadEvents envW (some fileTxt) = [] ∧
      handleFileUpload envW (some fileTxt) stW = stW :=
  handleFileUpload_ignores_nonPdf envW stW fileTxt (by decide)

/-- The image produced by a successful render under the platform whose two
encoders disagree. -/
def imgBadEnc : ConvertedImage :=
  (convertPageToImage pfBadEnc 0 fileW 1 settingsW).get (by rfl)

/-- The image produced by a successful render under the platform whose two
encoder entry points share one encoder. -/
def imgGoodEnc : ConvertedImage :=
  (convertPageToImage pfW 0 fileW 1 settingsW).get (by rfl)

/-- C5 counterexample: the source produces dataUrl and blob by two separate
platform encoder invocations (canvas.toDataURL and canvas.toBlob); with a
platform whose two encoders disagree, a successful render produces an image
whose dataUrl payload differs from its blob bytes, so the two are in fact
independent re-encodings and the claimed byte-consistency fails. -/
theorem convertPage_dataUrl_ne_blob :
    convertPageToImage pfBadEnc 0 fileW 1 settingsW = some imgBadEnc ∧
      imgBadEnc.dataUrl ≠ imgBadEnc.blob := by
  refine ⟨(Option.some_get _).symm, ?_⟩
  decide

/-- C5 amended: dataUrl and blob come from two independent encoder
invocations with identical arguments (same drawn surface, format and
quality); whenever the platform backs both entry points with one encoder
function, every successfully produced image is byte-consistent: the dataUrl
payload equals the blob bytes. -/
theorem convertPage_byte_consistent (pf : Platform) (now : Nat) (file : File)
    (i : Nat) (s : ConversionSettings) (img : ConvertedImage)
    (henc : pf.encodeDataUrl = pf.encodeBlob)
    (h : convertPageToImage pf now file i s = some img) :
    img.dataUrl = img.blob := by
  have h2 : mkConv pf now file s i = some img := h
  rcases mkConv_eq_some h2 with ⟨pdf, page, -, -, -, -, himg⟩
  rw [himg]
  show pf.encodeDataUrl page s.scale s.format s.quality
    = pf.encodeBlob page s.scale s.format s.quality
  rw [henc]

/-- Witness for C5 amended: with one shared encoder the produced image is
byte-consistent. -/
theorem convertPage_byte_consistent_witness :
    convertPageToImage pfW 0 fileW 1 settingsW = some imgGoodEnc ∧
      imgGoodEnc.dataUrl = imgGoodEnc.blob :=
  ⟨(Option.some_get _).symm,
    convertPage_byte_consistent pfW 0 fileW 1 settingsW imgGoodEnc rfl
      (Option.some_get _).symm⟩

/-- C9: updating the conversion settings (in particular the scale) mutates no
already-produced image: the accumulated image list, hence every image's
width, height, bytes and preview payload, is unchanged by the settings
update; and a subsequent conversion run renders under the new settings, so
each image it accumulates has dimensions equal to some document page's
intrinsic size multiplied by the new scale. -/
theorem setSettings_frame (pf : Platform) (now : Nat) (st : AppState)
    (s2 : ConversionSettings) (f : File) (md : PDFMetadata) (pdf : PDFDocument)
    (hf : st.file = some f) (hmd : st.metadata = some md) (hc : f.content = some pdf) :
    (applyEvent st (Event.setSettings s2)).images = st.images ∧
      ∀ img ∈ (convertAllPages pf now (applyEvent st (Event.setSettings s2))).images,
        ∃ page ∈ pdf.pages,
          img.width = page.width * s2.scale ∧ img.height = page.height * s2.scale := by
  constructor
  · rfl
  · intro img him
    have hf2 : (applyEvent st (Event.setSettings s2)).file = some f := hf
    have hmd2 : (applyEvent st (Event.setSettings s2)).metadata = some md := hmd
    rw [convertAllPages_images pf now _ f md hf2 hmd2] at him
    have hset : (applyEvent st (Event.setSettings s2)).settings = s2 := rfl
    rw [hset] at him
    rcases List.mem_filterMap.mp him with ⟨i, -, hconv⟩
    rcases mkConv_eq_some hconv with ⟨pdf2, page, hc2, hp, -, -, himg⟩
    rw [hc] at hc2
    obtain rfl : pdf = pdf2 := Option.some.inj hc2
    refine ⟨page, List.get?_mem hp, ?_, ?_⟩
    · rw [himg]
    · rw [himg]

/-- Witness for C9 at a concrete session, tripling the scale. -/
theorem setSettings_frame_witness :
    (applyEvent stW (Event.setSettings { settingsW with scale := 3 })).images
        = stW.images ∧
      ∀ img ∈ (convertAllPages pfW 0
          (applyEvent stW (Event.setSettings { settingsW with scale := 3 }))).images,
        ∃ page ∈ pdfW.pages,
          img.width = page.width * ({ settingsW with scale := 3 } : ConversionSettings).scale ∧
            img.height = page.height * ({ settingsW with scale := 3 } : ConversionSettings).scale :=
  setSettings_frame pfW 0 stW { settingsW with scale := 3 } fileW mdW pdfW rfl rfl rfl

/-- C7 counterexample: a convertAllPages run over a session whose prior
progress is 50 (holding a one-page document whose render fails) completes
with the image set reset to empty but with progress still 50, and the run
never publishes any progress value; so progress is not reset to 0 at the
start of the invocation. -/
theorem convertAll_no_progress_reset_cex :
    (convertAllPages pfW 0 stBad50).images = [] ∧
      (convertAllPages pfW 0 stBad50).progress = 50 ∧
      stBad50.progress = 50 ∧
      progressValues (convertAllPagesEvents pfW 0 stBad50) = [] :=
  ⟨rfl, rfl, rfl, rfl⟩

/-- C7 amended: at the start of every convertAll invocation (with a file and
metadata loaded), before any page is attempted, the accumulated image set is
reset to empty; the progress value however is not reset: the pre-loop
updates leave it at its prior value. -/
theorem convertAll_start_reset (pf : Platform) (now : Nat) (st : AppState)
    (f : File) (md : PDFMetadata) (hf : st.file = some f) (hmd : st.metadata = some md) :
    (applyEvents st [Event.setIsProcessing true, Event.clearImages]).images = [] ∧
      (applyEvents st [Event.setIsProcessing true, Event.clearImages]).progress
        = st.progress ∧
      convertAllPagesEvents pf now st
        = [Event.setIsProcessing true, Event.clearImages]
          ++ (loopEvents (mkConv pf now f st.settings) md.totalPages
            ++ [Event.setIsProcessing false]) := by
  refine ⟨rfl, rfl, ?_⟩
  rw [convertAllPagesEvents_eq pf now st f md hf hmd]
  rfl

/-- Witness for C7 amended at the concrete dirty session. -/
theorem convertAll_start_reset_witness :
    (applyEvents stBad50 [Event.setIsProcessing true, Event.clearImages]).images = [] ∧
      (applyEvents stBad50 [Event.setIsProcessing true, Event.clearImages]).progress
        = stBad50.progress ∧
      convertAllPagesEvents pfW 0 stBad50
        = [Event.setIsProcessing true, Event.clearImages]
          ++ (loopEvents (mkConv pfW 0 fileBad stBad50.settings) mdW.totalPages
            ++ [Event.setIsProcessing false]) :=
  convertAll_start_reset pfW 0 stBad50 fileBad mdW rfl rfl

/-- C1 counterexample: over a one-page document whose single render fails,
the run attempts page 1 (the failure is reported to the console) and
completes, but it publishes no progress value at all and leaves progress at
0, although round(1/1 times 100) is 100; so progress is not updated after a
failed attempt and the published sequence does not end at 100. -/
theorem convertAll_progress_cex :
    progressValues (convertAllPagesEvents pfW 0 stBad0) = [] ∧
      (convertAllPages pfW 0 stBad0).progress = 0 ∧
      failMsg 1 ∈ (convertAllPages pfW 0 stBad0).console ∧
      (convertAllPages pfW 0 stBad0).isProcessing = false ∧
      round100 1 1 = 100 := by
  refine ⟨rfl, rfl, ?_, rfl, rfl⟩
  rw [show (convertAllPages pfW 0 stBad0).console = [failMsg 1] from rfl]
  exact List.mem_singleton_self _

/-- C1 amended: over a run of convertAll, progress is published only after
successful attempts, each published value being round(page / totalPages
times 100); the published sequence is non-decreasing, and whenever the final
page's render succeeds (in particular when every render succeeds) the
sequence ends at 100. -/
theorem convertAll_progress_monotone (pf : Platform) (now : Nat) (st : AppState)
    (f : File) (md : PDFMetadata) (hf : st.file = some f) (hmd : st.metadata = some md)
    (htot : 0 < md.totalPages) :
    progressValues (convertAllPagesEvents pf now st)
        = ((attemptedPages md.totalPages).filter
            (fun i => (mkConv pf now f st.settings i).isSome)).map
              (fun i => round100 i md.totalPages) ∧
      List.Chain' (· ≤ ·) (progressValues (convertAllPagesEvents pf now st)) ∧
      ((mkConv pf now f st.settings md.totalPages).isSome = true →
        (progressValues (convertAllPagesEvents pf now st)).getLast? = some 100) := by
  have h1 := progressValues_convertAll pf now st f md hf hmd
  refine ⟨h1, ?_, ?_⟩
  · rw [h1]
    apply List.Pairwise.chain'
    rw [List.pairwise_map]
    have hp : List.Pairwise (· < ·) ((attemptedPages md.totalPages).filter
        (fun i => (mkConv pf now f st.settings i).isSome)) :=
      (attemptedPages_sorted md.totalPages).sublist (List.filter_sublist _)
    exact hp.imp fun hlt => round100_mono _ (Nat.le_of_lt hlt)
  · intro hsucc
    rw [h1]
    obtain ⟨m, hm⟩ : ∃ m, md.totalPages = m + 1 := ⟨md.totalPages - 1, by omega⟩
    rw [hm] at hsucc ⊢
    have hrange : attemptedPages (m + 1) = attemptedPages m ++ [1 + m] :=
      List.range'_1_concat 1 m
    have hlastsucc : (mkConv pf now f st.settings (1 + m)).isSome = true := by
      rw [Nat.add_comm]; exact hsucc
    rw [hrange, List.filter_append, List.map_append]
    have hfl : List.filter (fun i => (mkConv pf now f st.settings i).isSome) [1 + m]
        = [1 + m] := by
      simp [List.filter_cons, hlastsucc]
    rw [hfl, List.map_cons, List.map_nil, List.getLast?_concat]
    rw [Nat.add_comm 1 m, round100_total (m + 1) (by omega)]

/-- Witness for C1 amended at the clean one-page session whose page
renders. -/
theorem convertAll_progress_monotone_witness :
    progressValues (convertAllPagesEvents pfW 0 stW)
        = ((attemptedPages mdW.totalPages).filter
            (fun i => (mkConv pfW 0 fileW stW.settings i).isSome)).map
              (fun i => round100 i mdW.totalPages) ∧
      List.Chain' (· ≤ ·) (progressValues (convertAllPagesEvents pfW 0 stW)) ∧
      ((mkConv pfW 0 fileW stW.settings mdW.totalPages).isSome = true →
        (progressValues (convertAllPagesEvents pfW 0 stW)).getLast? = some 100) :=
  convertAll_progress_monotone pfW 0 stW fileW mdW rfl rfl (by decide)

/-- C2: convertAll attempts each page 1..N exactly once, in strictly
increasing page-number order (the attempted page list is exactly the
strictly increasing enumeration of 1..N); when the render of page k fails
the failure is reported to the console and the loop continues, so if page k
fails and every other page succeeds the final accumulated set has exactly
N - 1 images, excludes page k, preserves increasing page order, and the run
still reaches the Done state. -/
theorem convertAll_partial_failure (pf : Platform) (now : Nat) (st : AppState)
    (f : File) (md : PDFMetadata) (k : Nat)
    (hf : st.file = some f) (hmd : st.metadata = some md)
    (hk1 : 1 ≤ k) (hk2 : k ≤ md.totalPages)
    (hfail : mkConv pf now f st.settings k = none)
    (hsucc : ∀ i, i ≤ md.totalPages → 1 ≤ i → i ≠ k →
      (mkConv pf now f st.settings i).isSome = true) :
    List.Pairwise (· < ·) (attemptedPages md.totalPages) ∧
      (∀ i, i ∈ attemptedPages md.totalPages ↔ 1 ≤ i ∧ i ≤ md.totalPages) ∧
      ((convertAllPages pf now st).images.map fun img => img.pageNumber)
        = (attemptedPages md.totalPages).filter (fun i => i != k) ∧
      (convertAllPages pf now st).images.length = md.totalPages - 1 ∧
      (∀ img ∈ (convertAllPages pf now st).images, img.pageNumber ≠ k) ∧
      List.Pairwise (· < ·)
        ((convertAllPages pf now st).images.map fun img => img.pageNumber) ∧
      failMsg k ∈ (convertAllPages pf now st).console ∧
      (convertAllPages pf now st).isProcessing = false := by
  have hmem : k ∈ attemptedPages md.totalPages := attemptedPages_mem.mpr ⟨hk1, hk2⟩
  have hmapeq : ((convertAllPages pf now st).images.map fun img => img.pageNumber)
      = (attemptedPages md.totalPages).filter
          (fun i => (mkConv pf now f st.settings i).isSome) := by
    rw [convertAllPages_images pf now st f md hf hmd]
    exact map_pageNumber_filterMap _ (fun i img h => mkConv_pageNumber h) _
  have hfiltereq : (attemptedPages md.totalPages).filter
        (fun i => (mkConv pf now f st.settings i).isSome)
      = (attemptedPages md.totalPages).filter (fun i => i != k) := by
    apply List.filter_congr
    intro i hi
    rcases attemptedPages_mem.mp hi with ⟨h1, h2⟩
    by_cases hik : i = k
    · subst hik
      simp [hfail]
    · simp [hsucc i h2 h1 hik, hik]
  have hmap2 := hmapeq.trans hfiltereq
  refine ⟨attemptedPages_sorted md.totalPages, fun i => attemptedPages_mem, hmap2, ?_, ?_, ?_, ?_,
    convertAllPages_done pf now st f md hf hmd⟩
  · have hlen : ((convertAllPages pf now st).images.map fun img => img.pageNumber).length
        = md.totalPages - 1 := by
      rw [hmap2, ← List.Nodup.erase_eq_filter (attemptedPages_nodup md.totalPages) k,
        List.length_erase_of_mem hmem]
      simp [attemptedPages]
    rwa [List.length_map] at hlen
  · intro img him
    have hpn : img.pageNumber ∈
        (attemptedPages md.totalPages).filter (fun i => i != k) := by
      rw [← hmap2]
      exact List.mem_map_of_mem _ him
    exact bne_iff_ne.mp (List.mem_filter.mp hpn).2
  · rw [hmap2]
    exact (attemptedPages_sorted md.totalPages).sublist (List.filter_sublist _)
  · rw [convertAllPages_console pf now st f md hf hmd]
    apply List.mem_append_right
    apply List.mem_map_of_mem
    exact List.mem_filter.mpr ⟨hmem, by rw [hfail]; rfl⟩

/-- A readable two-page PDF document whose first page fails to render. -/
def pdfC2 : PDFDocument := { pages := [pageBad, pageW] }

/-- The file holding pdfC2. -/
def fileC2 : File :=
  { name := "c.pdf", size := 10, type := "application/pdf", content := some pdfC2 }

/-- Metadata of fileC2. -/
def mdC2 : PDFMetadata := { name := "c.pdf", size := 10, totalPages := 2 }

/-- A clean session holding the two-page document. -/
def stC2 : AppState := { stW with file := some fileC2, metadata := some mdC2 }

/-- Witness for C2 on a concrete two-page document whose page 1 fails. -/
theorem convertAll_partial_failure_witness :
    List.Pairwise (· < ·) (attemptedPages mdC2.totalPages) ∧
      (∀ i, i ∈ attemptedPages mdC2.totalPages ↔ 1 ≤ i ∧ i ≤ mdC2.totalPages) ∧
      ((convertAllPages pfW 0 stC2).images.map fun img => img.pageNumber)
        = (attemptedPages mdC2.totalPages).filter (fun i => i != 1) ∧
      (convertAllPages pfW 0 stC2).images.length = mdC2.totalPages - 1 ∧
      (∀ img ∈ (convertAllPages pfW 0 stC2).images, img.pageNumber ≠ 1) ∧
      List.Pairwise (· < ·)
        ((convertAllPages pfW 0 stC2).images.map fun img => img.pageNumber) ∧
      failMsg 1 ∈ (convertAllPages pfW 0 stC2).console ∧
      (convertAllPages pfW 0 stC2).isProcessing = false :=
  convertAll_partial_failure pfW 0 stC2 fileC2 mdC2 1 rfl rfl (by decide) (by decide)
    rfl (by decide)

/-- C8: during and after a conversion run (from the reset that starts the
run, through every intermediate published state, to the final one) the
accumulated image list always has page numbers that form a subset of
1..totalPages of the converted document with no duplicates; the first
conjunct identifies the run's update list, the second states the invariant
for every state the run passes through. -/
theorem convertAll_pageNumber_invariant (pf : Platform) (now : Nat) (st : AppState)
    (f : File) (md : PDFMetadata) (hf : st.file = some f) (hmd : st.metadata = some md) :
    convertAllPagesEvents pf now st
        = Event.setIsProcessing true :: Event.clearImages ::
          (loopEvents (mkConv pf now f st.settings) md.totalPages
            ++ [Event.setIsProcessing false]) ∧
      ∀ s ∈ runStates (applyEvents st [Event.setIsProcessing true, Event.clearImages])
          (loopEvents (mkConv pf now f st.settings) md.totalPages
            ++ [Event.setIsProcessing false]),
        (s.images.map fun img => img.pageNumber).Nodup ∧
          ∀ p ∈ s.images.map fun img => img.pageNumber, 1 ≤ p ∧ p ≤ md.totalPages := by
  refine ⟨convertAllPagesEvents_eq pf now st f md hf hmd, ?_⟩
  have main : ∀ (l : List ConvertedImage) (qs rs : List Nat),
      attemptedPages md.totalPages = qs ++ rs →
      l = qs.filterMap (mkConv pf now f st.settings) →
      ((l.map fun img => img.pageNumber).Nodup ∧
        ∀ p ∈ l.map fun img => img.pageNumber, 1 ≤ p ∧ p ≤ md.totalPages) := by
    intro l qs rs hsplit hl
    have hqsnd : qs.Nodup := by
      have := attemptedPages_nodup md.totalPages
      rw [hsplit] at this
      exact (List.Nodup.sublist (List.sublist_append_left qs rs) this)
    have hmapl : (l.map fun img => img.pageNumber)
        = qs.filter (fun i => (mkConv pf now f st.settings i).isSome) := by
      rw [hl]
      exact map_pageNumber_filterMap _ (fun i img h => mkConv_pageNumber h) _
    constructor
    · rw [hmapl]
      exact List.Nodup.sublist (List.filter_sublist _) hqsnd
    · intro p hp
      rw [hmapl] at hp
      have hpqs : p ∈ qs := (List.mem_filter.mp hp).1
      have : p ∈ attemptedPages md.totalPages := by
        rw [hsplit]
        exact List.mem_append_left rs hpqs
      exact attemptedPages_mem.mp this
  intro s hs
  rcases mem_runStates_append _ _ _ hs with hs | hs
  · rw [loopEvents] at hs
    rcases images_mem_runStates_flatMap _ md.totalPages _ _ _ hs with ⟨qs, rs, hsplit, him⟩
    refine main s.images qs rs hsplit ?_
    rw [him]
    rfl
  · rw [loopEvents] at hs
    have hX : (applyEvents (applyEvents st [Event.setIsProcessing true, Event.clearImages])
        ((attemptedPages md.totalPages).flatMap
          (pageEvents (mkConv pf now f st.settings) md.totalPages))).images
        = (attemptedPages md.totalPages).filterMap (mkConv pf now f st.settings) := by
      rw [images_applyEvents_flatMap]
      rfl
    simp only [runStates, List.mem_cons, List.mem_singleton] at hs
    rcases hs with hs | hs | hs
    · rw [hs]
      exact main _ (attemptedPages md.totalPages) [] (by simp) hX
    · rw [hs]
      refine main _ (attemptedPages md.totalPages) [] (by simp) ?_
      rw [← hX]
      rfl
    · exact absurd hs (List.not_mem_nil s)

/-- Witness for C8 at the clean one-page session. -/
theorem convertAll_pageNumber_invariant_witness :
    convertAllPagesEvents pfW 0 stW
        = Event.setIsProcessing true :: Event.clearImages ::
          (loopEvents (mkConv pfW 0 fileW stW.settings) mdW.totalPages
            ++ [Event.setIsProcessing false]) ∧
      ∀ s ∈ runStates (applyEvents stW [Event.setIsProcessing true, Event.clearImages])
          (loopEvents (mkConv pfW 0 fileW stW.settings) mdW.totalPages
            ++ [Event.setIsProcessing false]),
        (s.images.map fun img => img.pageNumber).Nodup ∧
          ∀ p ∈ s.images.map fun img => img.pageNumber, 1 ≤ p ∧ p ≤ mdW.totalPages :=
  convertAll_pageNumber_invariant pfW 0 stW fileW mdW rfl rfl

/-- A produced image fixture numbered 1. -/
def imgA : ConvertedImage :=
  { id := "x1", pageNumber := 1, dataUrl := [7], blob := [7], width := 6, height := 8 }

/-- A produced image fixture numbered 2. -/
def imgB : ConvertedImage :=
  { id := "x2", pageNumber := 2, dataUrl := [7], blob := [7], width := 6, height := 8 }

/-- C6 counterexample: packaging one image with baseName report under the
lossy format yields the entry name report_page_1.jpeg; the extension is the
TS union string jpeg interpolated into the template literal, not jpg as the
claim states. -/
theorem zipEntries_lossy_ext_cex :
    (zipEntries [imgA] "report" Format.jpeg).map Prod.fst = ["report_page_1.jpeg"] ∧
      "report_page_1.jpeg" ≠ "report_page_1.jpg" := by
  constructor
  · rfl
  · decide

/-- C6 amended: packaging N accumulated images numbered 1..N with baseName
report under the lossy format produces exactly N archive entries named
report_page_1.jpeg through report_page_N.jpeg (entry name of the form
base_page_pageNumber.extension, with extension jpeg derived from the
format), with no duplicate entry names. -/
theorem zipEntries_report_names (images : List ConvertedImage) (N : Nat)
    (hpn : (images.map fun img => img.pageNumber) = attemptedPages N) :
    (zipEntries images "report" Format.jpeg).map Prod.fst
        = (attemptedPages N).map (entryName "report" Format.jpeg) ∧
      (zipEntries images "report" Format.jpeg).length = N ∧
      ((zipEntries images "report" Format.jpeg).map Prod.fst).Nodup := by
  have hnames : (zipEntries images "report" Format.jpeg).map Prod.fst
      = (images.map fun img => img.pageNumber).map (entryName "report" Format.jpeg) := by
    unfold zipEntries
    rw [List.map_map, List.map_map]
    rfl
  have hnames2 : (zipEntries images "report" Format.jpeg).map Prod.fst
      = (attemptedPages N).map (entryName "report" Format.jpeg) := by
    rw [hnames, hpn]
  refine ⟨hnames2, ?_, ?_⟩
  · have hl : ((zipEntries images "report" Format.jpeg).map Prod.fst).length = N := by
      rw [hnames2, List.length_map]
      simp [attemptedPages]
    rwa [List.length_map] at hl
  · rw [hnames2]
    exact List.Nodup.map (fun a b hab => entryName_inj hab) (attemptedPages_nodup N)

/-- Witness for C6 amended on two concrete images, also anchoring the
concrete entry names. -/
theorem zipEntries_report_names_witness :
    ((zipEntries [imgA, imgB] "report" Format.jpeg).map Prod.fst
        = (attemptedPages 2).map (entryName "report" Format.jpeg) ∧
      (zipEntries [imgA, imgB] "report" Format.jpeg).length = 2 ∧
      ((zipEntries [imgA, imgB] "report" Format.jpeg).map Prod.fst).Nodup) ∧
      (zipEntries [imgA, imgB] "report" Format.jpeg).map Prod.fst
        = ["report_page_1.jpeg", "report_page_2.jpeg"] :=
  ⟨zipEntries_report_names [imgA, imgB] 2 (by decide), by decide⟩

/-! Cancellation scenario: a second document is loaded while the conversion
run of the first one is still in flight. -/

/-- The older two-page document whose run is in flight. -/
def oldPdf : PDFDocument := { pages := [pageW, pageW] }

/-- The file holding the older document. -/
def oldFileW : File :=
  { name := "old.pdf", size := 20, type := "application/pdf", content := some oldPdf }

/-- Metadata of the older document. -/
def oldMdW : PDFMetadata := { name := "old.pdf", size := 20, totalPages := 2 }

/-- The stale run's page-2 image, exactly as convertPageToImage produces it
for the older document. -/
def imgStale : ConvertedImage :=
  (convertPageToImage pfW 0 oldFileW 2 settingsW).get (by rfl)

/-- Session in the middle of the stale conversion run: page 1 already
published, page 2 still being rendered. -/
def stMid : AppState :=
  { file := some oldFileW, metadata := some oldMdW, settings := settingsW
    images := [(convertPageToImage pfW 0 oldFileW 1 settingsW).get (by rfl)]
    isProcessing := true, progress := 50, aiInsights := none, isAnalyzing := false
    console := [] }

/-- Remaining updates of the stale run after the upload handler has run: its
second loop iteration and its final setIsProcessing(false). -/
def staleTail : List Event :=
  pageEvents (mkConv pfW 0 oldFileW settingsW) 2 2 ++ [Event.setIsProcessing false]

/-- C4 counterexample: while the stale two-page run is between its pages, a
new document is loaded (the upload handler runs to completion); the stale
loop then finishes its second page. The image it produced for page 2 of the
old document lands in the accumulated set of the new session: nothing tags
results with a document identity and nothing cancels the stale run, so the
stale write is not discarded. -/
theorem upload_stale_write_cex :
    convertPageToImage pfW 0 oldFileW 2 settingsW = some imgStale ∧
      (applyEvents stMid
          (handleFileUploadEvents envW (some fileW) ++ staleTail)).file = some fileW ∧
      (applyEvents stMid
          (handleFileUploadEvents envW (some fileW) ++ staleTail)).images = [imgStale] ∧
      imgStale.pageNumber = 2 :=
  ⟨(Option.some_get _).symm, rfl, rfl, rfl⟩

/-- Image lists only grow under update lists that never clear them. -/
theorem images_applyEvents_noClear :
    ∀ (evs : List Event) (st : AppState), (∀ e ∈ evs, clearsImages e = false) →
      (applyEvents st evs).images = st.images ++ publishedImages evs := by
  intro evs
  induction evs with
  | nil => intro st h; simp [applyEvents, publishedImages]
  | cons e evs ih =>
    intro st h
    have he := h e (List.mem_cons_self e evs)
    have hrest : ∀ e2 ∈ evs, clearsImages e2 = false :=
      fun e2 m => h e2 (List.mem_cons_of_mem e m)
    rw [applyEvents_cons, ih _ hrest]
    cases e with
    | clearImages => simp [clearsImages] at he
    | pushImage img =>
      simp [applyEvent, publishedImages, List.filterMap_cons, List.append_assoc]
    | setFile x => simp [applyEvent, publishedImages, List.filterMap_cons]
    | setMetadata x => simp [applyEvent, publishedImages, List.filterMap_cons]
    | setSettings x => simp [applyEvent, publishedImages, List.filterMap_cons]
    | setIsProcessing x => simp [applyEvent, publishedImages, List.filterMap_cons]
    | setProgress x => simp [applyEvent, publishedImages, List.filterMap_cons]
    | setAiInsights x => simp [applyEvent, publishedImages, List.filterMap_cons]
    | setIsAnalyzing x => simp [applyEvent, publishedImages, List.filterMap_cons]
    | logError x => simp [applyEvent, publishedImages, List.filterMap_cons]

/-- C4 amended: loading a new PDF while a previous run is in flight clears
the accumulated set once, at load time, discarding stale images published
before the load; but the stale run is neither cancelled nor are its results
tagged with a document identity, so the new session's accumulated set ends
up being exactly the images the stale run publishes after the load. -/
theorem upload_then_stale_writes (env : AnalyzeEnv) (st : AppState) (f : File)
    (evs : List Event) (hf : f.type = "application/pdf")
    (hevs : ∀ e ∈ evs, clearsImages e = false) :
    (applyEvents st (handleFileUploadEvents env (some f) ++ evs)).images
      = publishedImages evs := by
  have h0 : (applyEvents st (handleFileUploadEvents env (some f))).images = [] := by
    simp only [handleFileUploadEvents, if_pos hf]
    cases hm : getPDFMetadata f with
    | none => rfl
    | some meta =>
      cases he : extractTextFromFirstPage f with
      | none => rfl
      | some text => rfl
  rw [applyEvents_append, images_applyEvents_noClear evs _ hevs, h0]
  rfl

/-- Witness for C4 amended at the concrete cancellation scenario. -/
theorem upload_then_stale_writes_witness :
    (applyEvents stMid
        (handleFileUploadEvents envW (some fileW) ++ staleTail)).images
      = publishedImages staleTail :=
  upload_then_stale_writes envW stMid fileW staleTail rfl (by decide)

end PDFPulse
